import Mathlib

/-!
Verification of the ingestion-and-reconciliation core of the repository.

The definitions below are a shallow embedding of the Python source:
* `src/services/database_service.py` (services-layer `DatabaseService`),
* `src/services/github_webhook_handler.py` (`GitHubWebhookHandler`),
* `src/legacy/database_service.py` (legacy `DatabaseService`),
* `src/legacy/repository_manager.py` (`RepositoryManager`),
* `src/legacy/agent_orchestrator.py` (`AgentOrchestrator`).

Database tables become lists of rows; each SQL statement is translated to a
pure function on that state.  A Python function that can raise is modelled as
returning the updated state together with an `Except` outcome: side effects
committed before the exception are kept in the state, matching the per-statement
`conn.commit()` discipline of the source.  Timestamps are modelled as `Nat`.
-/

namespace PracticeRepo

/-- Python exception values that the embedded code can raise.  The handlers in
the source wrap every exception into `DataStorageError(...)`; the wrapping only
changes the message, so we keep the underlying kind. -/
inductive PyErr where
  | keyError
  | typeError
  | valueError
  | jsonError
  deriving Repr, DecidableEq

/-! ## Services-layer store (`src/services/database_service.py`)

The `commits` table there is `commit_hash VARCHAR(40) UNIQUE NOT NULL` with no
`repository_id` column; `github_events` has a `processed BOOLEAN DEFAULT FALSE`
flag; `agent_interactions` records one row per backend call. -/

/-- The `metadata` JSONB built by `GitHubWebhookHandler.handle_push_event`:
`github_event_id`, `pusher`, `event_timestamp` (the wall-clock time of the
application, `datetime.now()`). -/
structure CommitMeta where
  github_event_id : Option String
  pusher : Option String
  event_timestamp : Nat
  deriving Repr, DecidableEq

/-- The `commit_info` dictionary passed to the services `save_commit`. -/
structure SCommitData where
  commit_hash : String
  author : String
  message : String
  timestamp_commit : Nat
  branch : Option String
  repository_path : Option String
  changed_files : List String
  metadata : CommitMeta
  deriving Repr, DecidableEq

/-- A row of the services-layer `commits` table. -/
structure SCommitRow where
  id : Nat
  commit_hash : String
  author : String
  message : String
  timestamp_commit : Nat
  branch : Option String
  repository_path : Option String
  changed_files : List String
  metadata : CommitMeta
  deriving Repr, DecidableEq

/-- A row of the `github_events` table (`processed` defaults to `FALSE`). -/
structure EventRow where
  id : Nat
  event_type : String
  repository : String
  commit_hash : Option String
  event_processed : Bool
  deriving Repr, DecidableEq

/-- A row of the `agent_interactions` table. -/
structure InteractionRow where
  id : Nat
  commit_id : Nat
  agent_type : String
  interaction_type : String
  output_data : String
  status : String
  deriving Repr, DecidableEq

/-- The services-layer database state: the three tables touched by the webhook
handler and the orchestrator, plus the `SERIAL` counters. -/
structure SDB where
  commits : List SCommitRow
  events : List EventRow
  interactions : List InteractionRow
  nextCommitId : Nat
  nextEventId : Nat
  nextInteractionId : Nat
  deriving Repr, DecidableEq

def emptySDB : SDB :=
  { commits := [], events := [], interactions := [],
    nextCommitId := 1, nextEventId := 1, nextInteractionId := 1 }

/-- `DatabaseService.save_commit` (services layer):
`INSERT ... ON CONFLICT (commit_hash) DO UPDATE SET ...` — keyed by the hash
alone; on conflict every mutable field is overwritten, the row id is kept. -/
def save_commit (db : SDB) (d : SCommitData) : SDB × Nat :=
  match db.commits.find? (fun c => c.commit_hash == d.commit_hash) with
  | some row =>
      ({ db with commits := db.commits.map (fun c =>
          if c.commit_hash == d.commit_hash then
            { c with author := d.author, message := d.message,
                     timestamp_commit := d.timestamp_commit, branch := d.branch,
                     repository_path := d.repository_path,
                     changed_files := d.changed_files, metadata := d.metadata }
          else c) },
       row.id)
  | none =>
      ({ db with
          commits := db.commits ++
            [{ id := db.nextCommitId, commit_hash := d.commit_hash,
               author := d.author, message := d.message,
               timestamp_commit := d.timestamp_commit, branch := d.branch,
               repository_path := d.repository_path,
               changed_files := d.changed_files, metadata := d.metadata }],
          nextCommitId := db.nextCommitId + 1 },
       db.nextCommitId)

/-- `DatabaseService.get_commit_by_hash` (services layer):
`SELECT * FROM commits WHERE commit_hash = %s` with `fetchone()`. -/
def get_commit_by_hash (db : SDB) (h : String) : Option SCommitRow :=
  db.commits.find? (fun c => c.commit_hash == h)

/-- `DatabaseService.save_github_event`: inserts a `github_events` row; the
`processed` column takes its `FALSE` default.  Returns the new id. -/
def save_github_event (db : SDB) (ty repo : String) (ch : Option String) :
    SDB × Nat :=
  ({ db with
      events := db.events ++
        [{ id := db.nextEventId, event_type := ty, repository := repo,
           commit_hash := ch, event_processed := false }],
      nextEventId := db.nextEventId + 1 },
   db.nextEventId)

/-- `DatabaseService.mark_event_processed`:
`UPDATE github_events SET processed = TRUE WHERE id = %s`. -/
def mark_event_processed (db : SDB) (i : Nat) : SDB :=
  { db with events := db.events.map (fun e =>
      if e.id == i then { e with event_processed := true } else e) }

/-- `DatabaseService.save_agent_interaction`: inserts an `agent_interactions`
row with the given status.  Returns the new id. -/
def save_agent_interaction (db : SDB) (cid : Nat) (aty ity out status : String) :
    SDB × Nat :=
  ({ db with
      interactions := db.interactions ++
        [{ id := db.nextInteractionId, commit_id := cid, agent_type := aty,
           interaction_type := ity, output_data := out, status := status }],
      nextInteractionId := db.nextInteractionId + 1 },
   db.nextInteractionId)

/-! ## Webhook payloads (`src/services/github_webhook_handler.py`)

A push payload carries a commit list whose `added` / `modified` / `removed`
fields the external interface defines as lists of file-path strings.  The
source nevertheless evaluates `file['filename']` on each entry, which succeeds
on a dict carrying a `filename` key and raises `TypeError` on a plain string.
We embed an entry as either shape. -/

inductive FileEntry where
  | pathStr (path : String)
  | obj (filename : String)
  deriving Repr, DecidableEq

/-- Python `file['filename']`: `KeyError`-free on our dicts, `TypeError` on a
string. -/
def fileEntryFilename : FileEntry → Except PyErr String
  | .pathStr _ => .error .typeError
  | .obj f => .ok f

/-- One entry of the payload's `commits` list.  A field is `none` when the key
is absent (direct indexing on it raises `KeyError`). -/
structure PushCommit where
  cid : Option String
  author_name : Option String
  message : Option String
  timestamp : Option Nat
  modified : List FileEntry
  added : List FileEntry
  removed : List FileEntry
  deriving Repr, DecidableEq

/-- The `pull_request` object of a pull-request payload. -/
structure PRData where
  number : Nat
  title : String
  user_login : String
  state : String
  head_sha : String
  base_sha : String
  created_at : Nat
  updated_at : Nat
  deriving Repr, DecidableEq

/-- The parsed JSON body (`event_data`).  Optional fields model `.get` chains
or possibly-absent keys. -/
structure EventData where
  repository_full_name : Option String
  ref : Option String
  commits : List PushCommit
  head_commit_id : Option String
  pusher_name : Option String
  action : Option String
  pr : Option PRData
  deriving Repr, DecidableEq

/-- Python `str.replace(pat, '')` on character lists: remove every
non-overlapping occurrence of `pat`, scanning left to right.  The `fuel`
argument makes the recursion structural; each step consumes at least one
character, so `fuel = s.length` always suffices. -/
def pyRemoveAllGo (pat : List Char) : Nat → List Char → List Char
  | _, [] => []
  | 0, s => s
  | fuel + 1, c :: rest =>
      if pat ≠ [] ∧ pat.isPrefixOf (c :: rest) then
        pyRemoveAllGo pat fuel ((c :: rest).drop pat.length)
      else
        c :: pyRemoveAllGo pat fuel rest

def pyRemoveAll (pat s : List Char) : List Char :=
  pyRemoveAllGo pat s.length s

/-- `event_data['ref'].replace('refs/heads/', '')`. -/
def stripRefsHeads (s : String) : String :=
  String.mk (pyRemoveAll "refs/heads/".toList s.toList)

/-- Building the `commit_info` dictionary inside
`GitHubWebhookHandler.handle_push_event`, field by field in source order.
`now` is `datetime.now()` at the time of this application. -/
def extract_commit_info (now : Nat) (data : EventData) (repository : String)
    (h : String) (c : PushCommit) : Except PyErr SCommitData :=
  match c.author_name with
  | none => .error .keyError
  | some author =>
      match c.message with
      | none => .error .keyError
      | some msg =>
          match c.timestamp with
          | none => .error .keyError
          | some ts =>
              match data.ref with
              | none => .error .keyError
              | some ref =>
                  match (c.modified ++ c.added ++ c.removed).mapM
                      fileEntryFilename with
                  | .error e => .error e
                  | .ok files =>
                      .ok { commit_hash := h, author := author, message := msg,
                            timestamp_commit := ts,
                            branch := some (stripRefsHeads ref),
                            repository_path := some repository,
                            changed_files := files,
                            metadata := { github_event_id := data.head_commit_id,
                                          pusher := data.pusher_name,
                                          event_timestamp := now } }

/-- The `for commit_data in commits:` loop of `handle_push_event`.  There is no
per-commit exception handling in the source: the first raising entry aborts the
loop, keeping the rows already written.  An entry whose hash is already stored
is skipped (`continue`). -/
def processCommitsGo (now : Nat) (data : EventData) (repository : String) :
    List PushCommit → SDB → List String → SDB × Except PyErr (List String)
  | [], db, acc => (db, .ok acc)
  | c :: rest, db, acc =>
      match c.cid with
      | none => (db, .error .keyError)
      | some h =>
          if (get_commit_by_hash db h).isSome then
            processCommitsGo now data repository rest db acc
          else
            match extract_commit_info now data repository h c with
            | .error e => (db, .error e)
            | .ok d =>
                let db' := (save_commit db d).1
                processCommitsGo now data repository rest db' (acc ++ [h])

/-- `GitHubWebhookHandler.handle_push_event`. -/
def handle_push_event (now : Nat) (data : EventData) (db : SDB) :
    SDB × Except PyErr (List String) :=
  match data.repository_full_name with
  | none => (db, .error .keyError)
  | some repository => processCommitsGo now data repository data.commits db []

/-- `GitHubWebhookHandler.handle_pull_request_event`: requires the
`repository`, `pull_request` and `action` keys, then records a second
`github_events` row for the PR. -/
def handle_pull_request_event (data : EventData) (db : SDB) :
    SDB × Except PyErr Unit :=
  match data.repository_full_name with
  | none => (db, .error .keyError)
  | some repository =>
      match data.pr with
      | none => (db, .error .keyError)
      | some pr =>
          match data.action with
          | none => (db, .error .keyError)
          | some _ =>
              ((save_github_event db "pull_request" repository
                  (some pr.head_sha)).1, .ok ())

/-- `GitHubWebhookHandler.verify_signature`: skipped when no secret is
configured; otherwise constant-time comparison of the header against
`"sha256=" ++ HMAC-SHA256(secret, raw body)`.  The HMAC itself is an opaque
keyed hash, passed in as `hmac`. -/
def verify_signature (secret : Option String) (hmac : String → String → String)
    (payload signature : String) : Bool :=
  match secret with
  | none => true
  | some s => signature == "sha256=" ++ hmac s payload

/-- `GitHubWebhookHandler.handle_webhook`.  `decode` stands for `json.loads`
(`none` = parse error).  On success returns the event id and the literal
`processed: True` of the source's response dictionary. -/
def handle_webhook (hmac : String → String → String)
    (decode : String → Option EventData) (secret : Option String)
    (event_type payload : String) (signature : Option String) (now : Nat)
    (db : SDB) : SDB × Except PyErr (Nat × Bool) :=
  if ¬ verify_signature secret hmac payload (signature.getD "") then
    (db, .error .valueError)
  else
    match decode payload with
    | none => (db, .error .jsonError)
    | some data =>
        let repository := data.repository_full_name.getD "unknown"
        let ch : Option String :=
          if event_type == "push" then data.head_commit_id
          else if event_type == "pull_request" then data.pr.map (fun p => p.head_sha)
          else none
        let saved := save_github_event db event_type repository ch
        let db1 := saved.1
        let event_id := saved.2
        let step : SDB × Except PyErr Unit :=
          if event_type == "push" then
            match handle_push_event now data db1 with
            | (db2, .ok _) => (db2, .ok ())
            | (db2, .error e) => (db2, .error e)
          else if event_type == "pull_request" then
            handle_pull_request_event data db1
          else (db1, .ok ())
        match step with
        | (db2, .error e) => (db2, .error e)
        | (db2, .ok _) => (mark_event_processed db2 event_id, .ok (event_id, true))

/-! ## Agent orchestrator (`src/legacy/agent_orchestrator.py`)

`process_commit_with_agents` runs the Code Llama backend and the Ollama
backend each inside its own `try`/`except`: a success stores a `completed`
interaction, a raised exception stores a `failed` interaction with the error
text, and neither block can abort the other.  The outcome of each backend call
(`analyze_commit_with_code_llama` / `analyze_commit_with_ollama`, which depend
on network reachability) is passed in as an `Except`. -/

def process_commit_with_agents (codeRes ollamaRes : Except String String)
    (commit_id : Nat) (db : SDB) : SDB × List Nat :=
  let step1 : SDB × List Nat :=
    match codeRes with
    | .ok out =>
        let s := save_agent_interaction db commit_id "code_llama"
          "code_analysis" out "completed"
        (s.1, [s.2])
    | .error e =>
        let s := save_agent_interaction db commit_id "code_llama"
          "code_analysis" e "failed"
        (s.1, [])
  let step2 : SDB × List Nat :=
    match ollamaRes with
    | .ok out =>
        let s := save_agent_interaction step1.1 commit_id "ollama"
          "commit_analysis" out "completed"
        (s.1, [s.2])
    | .error e =>
        let s := save_agent_interaction step1.1 commit_id "ollama"
          "commit_analysis" e "failed"
        (s.1, [])
  (step2.1, step1.2 ++ step2.2)

/-- Sort key of `ORDER BY c.timestamp_commit DESC`. -/
def tsDesc (a b : SCommitRow) : Prop :=
  b.timestamp_commit ≤ a.timestamp_commit

instance : DecidableRel tsDesc := fun a b =>
  Nat.decLe b.timestamp_commit a.timestamp_commit

instance : IsTotal SCommitRow tsDesc :=
  ⟨fun a b => (Nat.le_total a.timestamp_commit b.timestamp_commit).symm⟩

instance : IsTrans SCommitRow tsDesc :=
  ⟨fun _ _ _ hab hbc => Nat.le_trans hbc hab⟩

/-- The row-selection query of
`AgentOrchestrator.process_unanalyzed_commits`:
`SELECT c.* FROM commits c LEFT JOIN agent_interactions ai ON c.id =
ai.commit_id WHERE ai.id IS NULL ORDER BY c.timestamp_commit DESC` —
commits with no interaction row at all (of any backend and any status),
newest commit timestamp first. -/
def process_unanalyzed_query (db : SDB) : List SCommitRow :=
  (db.commits.filter
    (fun c => ! db.interactions.any (fun ai => ai.commit_id == c.id))).insertionSort
    tsDesc

/-! ## Legacy store (`src/legacy/database_service.py`,
`src/legacy/repository_manager.py`)

The legacy `commits` table carries `repository_id` and `repository_name` and
declares `UNIQUE(commit_hash, repository_id)`; `repositories` declares
`full_name VARCHAR(500) UNIQUE`.  PostgreSQL `UNIQUE` and `ON CONFLICT` treat
`NULL` values as distinct: an insert with a `NULL` `repository_id` never
conflicts. -/

structure RepoRow where
  id : Nat
  name : String
  owner : String
  full_name : String
  description : Option String
  language : Option String
  is_private : Bool
  deriving Repr, DecidableEq

/-- The `commit_data` dictionary accepted by the legacy `save_commit`
(`.get` fields are optional). -/
structure LCommitData where
  commit_hash : String
  repository_id : Option Nat
  author : String
  message : String
  timestamp_commit : Nat
  branch : Option String
  repository_path : Option String
  repository_name : Option String
  changed_files : List String
  metaStr : String
  deriving Repr, DecidableEq

/-- A row of the legacy `commits` table. -/
structure LCommitRow where
  id : Nat
  commit_hash : String
  repository_id : Option Nat
  author : String
  message : String
  timestamp_commit : Nat
  branch : Option String
  repository_path : Option String
  repository_name : Option String
  changed_files : List String
  metaStr : String
  deriving Repr, DecidableEq

/-- The legacy database state. -/
structure LDB where
  repositories : List RepoRow
  commits : List LCommitRow
  nextRepoId : Nat
  nextCommitId : Nat
  deriving Repr, DecidableEq

def emptyLDB : LDB :=
  { repositories := [], commits := [], nextRepoId := 1, nextCommitId := 1 }

/-- Legacy `DatabaseService.save_commit`:
`INSERT ... ON CONFLICT (commit_hash, repository_id) DO UPDATE SET ...`.
A conflict fires only when the new `repository_id` is non-null and a row with
the same `(commit_hash, repository_id)` exists; a null `repository_id` always
inserts a fresh row. -/
def lsave_commit (db : LDB) (d : LCommitData) : LDB × Nat :=
  let hit : Option LCommitRow :=
    match d.repository_id with
    | none => none
    | some _ =>
        db.commits.find? (fun c =>
          c.commit_hash == d.commit_hash && c.repository_id == d.repository_id)
  match hit with
  | some row =>
      ({ db with commits := db.commits.map (fun c =>
          if c.commit_hash == d.commit_hash && c.repository_id == d.repository_id
          then
            { c with author := d.author, message := d.message,
                     timestamp_commit := d.timestamp_commit, branch := d.branch,
                     repository_path := d.repository_path,
                     repository_name := d.repository_name,
                     changed_files := d.changed_files, metaStr := d.metaStr }
          else c) },
       row.id)
  | none =>
      ({ db with
          commits := db.commits ++
            [{ id := db.nextCommitId, commit_hash := d.commit_hash,
               repository_id := d.repository_id, author := d.author,
               message := d.message, timestamp_commit := d.timestamp_commit,
               branch := d.branch, repository_path := d.repository_path,
               repository_name := d.repository_name,
               changed_files := d.changed_files, metaStr := d.metaStr }],
          nextCommitId := db.nextCommitId + 1 },
       db.nextCommitId)

/-- Legacy `DatabaseService.get_commit_by_hash`:
`SELECT * FROM commits WHERE commit_hash = %s` with `fetchone()` — the query
has no repository parameter; it returns the first stored row with that hash
across all repositories. -/
def lget_commit_by_hash (db : LDB) (h : String) : Option LCommitRow :=
  db.commits.find? (fun c => c.commit_hash == h)

/-- `RepositoryManager.register_repository`:
`INSERT INTO repositories ... ON CONFLICT (full_name) DO UPDATE SET
description, language, is_private, updated_at`. -/
def register_repository (db : LDB) (owner name : String)
    (description language : Option String) (is_private : Bool) : LDB × Nat :=
  let fn := owner ++ "/" ++ name
  match db.repositories.find? (fun r => r.full_name == fn) with
  | some row =>
      ({ db with repositories := db.repositories.map (fun r =>
          if r.full_name == fn then
            { r with description := description, language := language,
                     is_private := is_private }
          else r) },
       row.id)
  | none =>
      ({ db with
          repositories := db.repositories ++
            [{ id := db.nextRepoId, name := name, owner := owner,
               full_name := fn, description := description,
               language := language, is_private := is_private }],
          nextRepoId := db.nextRepoId + 1 },
       db.nextRepoId)

/-- Legacy `DatabaseService.ensure_repository_isolation`:
upsert on `full_name` (the conflict branch touches only `updated_at`), then
`UPDATE commits SET repository_id = %s WHERE repository_name = %s AND
repository_id IS NULL`. -/
def ensure_repository_isolation (db : LDB) (owner name : String) : LDB × Nat :=
  let fn := owner ++ "/" ++ name
  let upserted : LDB × Nat :=
    match db.repositories.find? (fun r => r.full_name == fn) with
    | some row => (db, row.id)
    | none =>
        ({ db with
            repositories := db.repositories ++
              [{ id := db.nextRepoId, name := name, owner := owner,
                 full_name := fn, description := none, language := none,
                 is_private := false }],
            nextRepoId := db.nextRepoId + 1 },
         db.nextRepoId)
  let db1 := upserted.1
  let rid := upserted.2
  ({ db1 with commits := db1.commits.map (fun c =>
      if c.repository_name == some name && c.repository_id == none then
        { c with repository_id := some rid }
      else c) },
   rid)

/-- The `LEFT JOIN repositories r ON c.repository_id = r.id` of the legacy
listing queries: the joined row, if any. -/
def repoOfCommit (db : LDB) (c : LCommitRow) : Option RepoRow :=
  match c.repository_id with
  | none => none
  | some rid => db.repositories.find? (fun r => r.id == rid)

/-- `r.name` after the left join (`NULL` when unlinked). -/
def joinedRepoName (db : LDB) (c : LCommitRow) : Option String :=
  (repoOfCommit db c).map (fun r => r.name)

/-- `r.owner` after the left join. -/
def joinedRepoOwner (db : LDB) (c : LCommitRow) : Option String :=
  (repoOfCommit db c).map (fun r => r.owner)

/-- Sort key of `ORDER BY c.timestamp_commit DESC` on legacy rows. -/
def ltsDesc (a b : LCommitRow) : Prop :=
  b.timestamp_commit ≤ a.timestamp_commit

instance : DecidableRel ltsDesc := fun a b =>
  Nat.decLe b.timestamp_commit a.timestamp_commit

instance : IsTotal LCommitRow ltsDesc :=
  ⟨fun a b => (Nat.le_total a.timestamp_commit b.timestamp_commit).symm⟩

instance : IsTrans LCommitRow ltsDesc :=
  ⟨fun _ _ _ hab hbc => Nat.le_trans hbc hab⟩

/-- Legacy `DatabaseService.get_recent_commits` with a `repository_name`
argument: `WHERE (r.name = %s AND r.name != 'Practice_Repo') OR
(c.repository_name = %s AND c.repository_name != 'Practice_Repo')
ORDER BY c.timestamp_commit DESC LIMIT %s`. -/
def get_recent_commits_scoped (db : LDB) (q : String) (lim : Nat) :
    List LCommitRow :=
  ((db.commits.filter (fun c =>
      (joinedRepoName db c == some q && q != "Practice_Repo") ||
      (c.repository_name == some q && q != "Practice_Repo"))).insertionSort
    ltsDesc).take lim

/-- Legacy `DatabaseService.get_recent_commits` without a repository argument:
`WHERE (r.name IS NULL OR r.name != 'Practice_Repo') OR
(c.repository_name IS NULL OR c.repository_name != 'Practice_Repo')`. -/
def get_recent_commits_all (db : LDB) (lim : Nat) : List LCommitRow :=
  ((db.commits.filter (fun c =>
      (joinedRepoName db c != some "Practice_Repo") ||
      (c.repository_name != some "Practice_Repo"))).insertionSort
    ltsDesc).take lim

/-- Legacy `DatabaseService.get_repository_commits`:
`WHERE (r.owner = %s AND r.name = %s) OR (c.repository_name = %s AND
c.repository_name != 'Practice_Repo') ORDER BY c.timestamp_commit DESC
LIMIT %s`.  Note the join disjunct carries no `Practice_Repo` exclusion. -/
def get_repository_commits (db : LDB) (owner name : String) (lim : Nat) :
    List LCommitRow :=
  ((db.commits.filter (fun c =>
      (joinedRepoOwner db c == some owner && joinedRepoName db c == some name) ||
      (c.repository_name == some name && name != "Practice_Repo"))).insertionSort
    ltsDesc).take lim

/-- One row of the per-repository statistics of
`RepositoryManager.get_repository_statistics`. -/
structure RepoStat where
  id : Nat
  name : String
  owner : String
  full_name : String
  commit_count : Nat
  deriving Repr, DecidableEq

/-- Sort key of `ORDER BY commit_count DESC`. -/
def countDesc (a b : RepoStat) : Prop := b.commit_count ≤ a.commit_count

instance : DecidableRel countDesc := fun a b =>
  Nat.decLe b.commit_count a.commit_count

instance : IsTotal RepoStat countDesc :=
  ⟨fun a b => (Nat.le_total a.commit_count b.commit_count).symm⟩

instance : IsTrans RepoStat countDesc :=
  ⟨fun _ _ _ hab hbc => Nat.le_trans hbc hab⟩

/-- The result of `RepositoryManager.get_repository_statistics`. -/
structure RepoStatistics where
  repositories : List RepoStat
  total_repositories : Nat
  total_commits : Nat
  deriving Repr, DecidableEq

/-- `RepositoryManager.get_repository_statistics`: per-repository commit
counts over `repositories ... LEFT JOIN commits ... WHERE r.name !=
'Practice_Repo'`, the repository count with the same exclusion, and
`total_commits` over `commits ... WHERE (r.name IS NULL OR r.name !=
'Practice_Repo') AND (c.repository_name IS NULL OR c.repository_name !=
'Practice_Repo')`. -/
def get_repository_statistics (db : LDB) : RepoStatistics :=
  { repositories :=
      ((db.repositories.filter (fun r => r.name != "Practice_Repo")).map
        (fun r =>
          { id := r.id, name := r.name, owner := r.owner,
            full_name := r.full_name,
            commit_count :=
              (db.commits.filter
                (fun c => c.repository_id == some r.id)).length })).insertionSort
        countDesc,
    total_repositories :=
      (db.repositories.filter (fun r => r.name != "Practice_Repo")).length,
    total_commits :=
      (db.commits.filter (fun c =>
        (joinedRepoName db c != some "Practice_Repo") &&
        (c.repository_name != some "Practice_Repo"))).length }

/-- `Except` outcome as the boolean "completed without raising". -/
def exceptOk {ε α : Type} : Except ε α → Bool
  | .ok _ => true
  | .error _ => false

/-- Hash-uniqueness invariant of the legacy `commits` table: at most one row
per `(commit_hash, repository_id)` with a non-null repository id
(`UNIQUE(commit_hash, repository_id)`; SQL treats NULLs as distinct). -/
def LUniq (db : LDB) : Prop :=
  ∀ h r, (db.commits.filter (fun c =>
    c.commit_hash == h && c.repository_id == some r)).length ≤ 1

/-! ## Concrete inputs used by the individual claim checks -/

def wData : EventData :=
  { repository_full_name := some "acme/widgets", ref := some "refs/heads/main",
    commits := [], head_commit_id := none, pusher_name := none,
    action := none, pr := none }

def c3Commit : PushCommit :=
  { cid := some "c3hash", author_name := some "Ada", message := some "fix bug",
    timestamp := some 50, modified := [], added := [], removed := [] }

def c3Data : EventData :=
  { repository_full_name := some "acme/widgets", ref := some "refs/heads/main",
    commits := [c3Commit], head_commit_id := some "c3hash",
    pusher_name := some "Ada", action := none, pr := none }

def c3wCommit : PushCommit :=
  { cid := some "c3whash", author_name := some "Bob", message := some "m",
    timestamp := some 7, modified := [], added := [], removed := [] }

def c3wData : EventData :=
  { repository_full_name := some "acme/w2", ref := some "refs/heads/dev",
    commits := [c3wCommit], head_commit_id := some "c3whash",
    pusher_name := some "Bob", action := none, pr := none }

def c3wDB : SDB := (handle_push_event 1 c3wData emptySDB).1

def c4Row : SCommitRow :=
  { id := 1, commit_hash := "c4hash", author := "Ada", message := "m",
    timestamp_commit := 10, branch := none, repository_path := none,
    changed_files := [],
    metadata := { github_event_id := none, pusher := none, event_timestamp := 0 } }

def c4DB : SDB :=
  { commits := [c4Row], events := [],
    interactions := [{ id := 1, commit_id := 1, agent_type := "code_llama",
                       interaction_type := "code_analysis",
                       output_data := "Ollama is not running", status := "failed" }],
    nextCommitId := 2, nextEventId := 1, nextInteractionId := 2 }

def c4wDB : SDB :=
  { commits := [c4Row], events := [], interactions := [],
    nextCommitId := 2, nextEventId := 1, nextInteractionId := 1 }

def c6Bad : PushCommit :=
  { cid := none, author_name := some "Eve", message := some "broken",
    timestamp := some 3, modified := [], added := [], removed := [] }

def c6Good : PushCommit :=
  { cid := some "good1", author_name := some "Bob", message := some "ok",
    timestamp := some 4, modified := [], added := [], removed := [] }

def c6Data : EventData :=
  { repository_full_name := some "acme/widgets", ref := some "refs/heads/main",
    commits := [c6Bad, c6Good], head_commit_id := some "good1",
    pusher_name := some "Bob", action := none, pr := none }

def c6GoodOnlyData : EventData :=
  { c6Data with commits := [c6Good] }

def c6wData : EventData :=
  { repository_full_name := some "acme/widgets", ref := some "refs/heads/main",
    commits := [c6Good, c6Bad, c3Commit], head_commit_id := some "good1",
    pusher_name := some "Bob", action := none, pr := none }

def c6wDB : SDB := (processCommitsGo 9 c6wData "acme/widgets" [c6Good] emptySDB []).1

def c7BadPush : EventData :=
  { repository_full_name := some "acme/widgets", ref := some "refs/heads/main",
    commits := [c6Bad], head_commit_id := none, pusher_name := none,
    action := none, pr := none }

def c9Commit : PushCommit :=
  { cid := some "deadbeef", author_name := some "Ada", message := some "fix bug",
    timestamp := some 100, modified := [.pathStr "a.py"],
    added := [.pathStr "b.py"], removed := [] }

def c9Data : EventData :=
  { repository_full_name := some "acme/widgets", ref := some "refs/heads/main",
    commits := [c9Commit], head_commit_id := some "deadbeef",
    pusher_name := some "Ada", action := none, pr := none }

def c2d1 : LCommitData :=
  { commit_hash := "c2hash", repository_id := some 1, author := "A",
    message := "first", timestamp_commit := 10, branch := some "main",
    repository_path := none, repository_name := some "r1",
    changed_files := [], metaStr := "" }

def c2d2 : LCommitData :=
  { commit_hash := "c2hash", repository_id := some 2, author := "B",
    message := "second", timestamp_commit := 20, branch := some "main",
    repository_path := none, repository_name := some "r2",
    changed_files := [], metaStr := "" }

def c2DB : LDB := (lsave_commit (lsave_commit emptyLDB c2d1).1 c2d2).1

def c8Row : RepoRow :=
  { id := 3, name := "b", owner := "a", full_name := "a/b",
    description := some "old", language := some "Python", is_private := false }

def c8Commit : LCommitRow :=
  { id := 5, commit_hash := "k", repository_id := none, author := "A",
    message := "m", timestamp_commit := 1, branch := none,
    repository_path := none, repository_name := some "b",
    changed_files := [], metaStr := "" }

def c8DB : LDB :=
  { repositories := [c8Row], commits := [c8Commit],
    nextRepoId := 4, nextCommitId := 6 }

def c10Repo : RepoRow :=
  { id := 1, name := "Practice_Repo", owner := "mdasif08",
    full_name := "mdasif08/Practice_Repo", description := none,
    language := none, is_private := false }

def c10Commit : LCommitRow :=
  { id := 1, commit_hash := "p1", repository_id := some 1, author := "A",
    message := "m", timestamp_commit := 10, branch := none,
    repository_path := none, repository_name := some "Practice_Repo",
    changed_files := [], metaStr := "" }

def c10DB : LDB :=
  { repositories := [c10Repo], commits := [c10Commit],
    nextRepoId := 2, nextCommitId := 2 }

def c10wRepo : RepoRow :=
  { id := 2, name := "widgets", owner := "acme", full_name := "acme/widgets",
    description := none, language := none, is_private := false }

def c10wCommit : LCommitRow :=
  { id := 2, commit_hash := "w1", repository_id := some 2, author := "B",
    message := "m2", timestamp_commit := 11, branch := none,
    repository_path := none, repository_name := some "widgets",
    changed_files := [], metaStr := "" }

def c10wOrphan : LCommitRow :=
  { id := 3, commit_hash := "o1", repository_id := none, author := "C",
    message := "m3", timestamp_commit := 12, branch := none,
    repository_path := none, repository_name := some "Practice_Repo",
    changed_files := [], metaStr := "" }

def c10wDB : LDB :=
  { repositories := [c10Repo, c10wRepo],
    commits := [c10Commit, c10wCommit, c10wOrphan],
    nextRepoId := 3, nextCommitId := 4 }

/-- A commit hash is stored in the services-layer commit table. -/
def hashStored (db : SDB) (h : String) : Prop :=
  ∃ c ∈ db.commits, c.commit_hash = h

/-! ## Claim C1 -/

/-- C1: when a webhook secret is configured and the signature header does not
equal `"sha256=" ++ HMAC-SHA256(secret, raw body)`, `handle_webhook` raises an
error and performs no storage write at all: the state — `github_events`,
`commits` and `agent_interactions` alike — is returned untouched. -/
theorem C1_bad_signature_rejected_before_any_write
    (hmac : String → String → String) (decode : String → Option EventData)
    (s event_type payload : String) (signature : Option String)
    (now : Nat) (db : SDB)
    (hsig : signature.getD "" ≠ "sha256=" ++ hmac s payload) :
    handle_webhook hmac decode (some s) event_type payload signature now db
      = (db, .error .valueError) := by
  unfold handle_webhook verify_signature
  simp [hsig]

/-- Witness for C1 at a concrete secret, body and mismatching signature. -/
theorem C1_bad_signature_witness :
    ((some "x" : Option String).getD "" ≠
        "sha256=" ++ (fun (k b : String) => k ++ b) "sec" "body") ∧
    handle_webhook (fun k b => k ++ b) (fun _ => some wData) (some "sec")
        "push" "body" (some "x") 0 emptySDB = (emptySDB, .error .valueError) :=
  ⟨by decide,
   C1_bad_signature_rejected_before_any_write (fun k b => k ++ b)
     (fun _ => some wData) "sec" "push" "body" (some "x") 0 emptySDB (by decide)⟩

/-! ## Claim C5 -/

/-- C5: with two configured backends, when one backend's call raises and the
other succeeds, `process_commit_with_agents` records exactly one `failed`
interaction for the failing backend and one `completed` interaction for the
succeeding backend — in either order of which backend fails. -/
theorem C5_partial_failure_isolation (e out : String) (cid : Nat) (db : SDB) :
    ((process_commit_with_agents (.error e) (.ok out) cid db).1.interactions
      = db.interactions ++
        [{ id := db.nextInteractionId, commit_id := cid,
           agent_type := "code_llama", interaction_type := "code_analysis",
           output_data := e, status := "failed" },
         { id := db.nextInteractionId + 1, commit_id := cid,
           agent_type := "ollama", interaction_type := "commit_analysis",
           output_data := out, status := "completed" }]) ∧
    ((process_commit_with_agents (.ok out) (.error e) cid db).1.interactions
      = db.interactions ++
        [{ id := db.nextInteractionId, commit_id := cid,
           agent_type := "code_llama", interaction_type := "code_analysis",
           output_data := out, status := "completed" },
         { id := db.nextInteractionId + 1, commit_id := cid,
           agent_type := "ollama", interaction_type := "commit_analysis",
           output_data := e, status := "failed" }]) := by
  constructor <;> simp [process_commit_with_agents, save_agent_interaction]

/-! ## Claim C9 -/

/-- C9: on a push payload whose commit entry carries its changed files as
lists of path strings — the shape the external interface defines — the push
handler does not store the union of the `added`/`modified`/`removed` lists: it
evaluates `file['filename']` on a string, raises `TypeError`, and stores no
commit at all. -/
theorem C9_string_file_entries_raise_typeError :
    handle_push_event 0 c9Data emptySDB = (emptySDB, .error .typeError) ∧
    c9Commit.modified = [.pathStr "a.py"] ∧ c9Commit.added = [.pathStr "b.py"] :=
  ⟨rfl, rfl, rfl⟩

/-! ## Claim C4 -/

/-- C4 counterexample: a commit whose only recorded interaction for the
`code_llama` backend is `failed` is *not* contained in the unanalyzed-commit
query of the next reconciliation cycle — the query keeps only commits with no
interaction row at all, so the claim's retry property fails on this store. -/
theorem C4_counterexample_failed_only_commit_not_listed :
    process_unanalyzed_query c4DB = [] ∧
    c4Row ∈ c4DB.commits ∧
    c4DB.interactions.all (fun ai => ai.commit_id == c4Row.id &&
      ai.agent_type == "code_llama" && ai.status == "failed") = true := by
  decide

/-- C4 amended: the unanalyzed-commit set contains exactly the commits with no
recorded interaction row at all — for any backend and regardless of status, so
a commit with a `failed`-only interaction is never retried — ordered by commit
timestamp newest first. -/
theorem C4_amended_unanalyzed_query (db : SDB) :
    (∀ c, c ∈ process_unanalyzed_query db ↔
        c ∈ db.commits ∧ ∀ ai ∈ db.interactions, ai.commit_id ≠ c.id) ∧
    (process_unanalyzed_query db).Sorted tsDesc := by
  constructor
  · intro c
    unfold process_unanalyzed_query
    rw [List.Perm.mem_iff (List.perm_insertionSort _ _), List.mem_filter]
    simp
  · exact List.sorted_insertionSort tsDesc _

/-- Witness for C4 amended: a stored commit with no interactions is listed. -/
theorem C4_amended_witness :
    c4Row ∈ process_unanalyzed_query c4wDB :=
  ((C4_amended_unanalyzed_query c4wDB).1 c4Row).mpr ⟨by decide, by decide⟩

/-! ## Claim C3 -/

/-- C3 counterexample: applying the same push payload twice, the handler skips
the second application entirely, so the stored metadata keeps the *first*
application's event timestamp (1) even though the second application would
supply event timestamp 2 — the second application's field values do not win. -/
theorem C3_counterexample_second_application_skipped :
    ((handle_push_event 2 c3Data (handle_push_event 1 c3Data emptySDB).1).1.commits.map
        (fun c => (c.commit_hash, c.metadata.event_timestamp)) = [("c3hash", 1)]) ∧
    ((extract_commit_info 2 c3Data "acme/widgets" "c3hash" c3Commit).toOption.map
        (fun d => d.metadata.event_timestamp) = some 2) := by
  decide

/-! ### Lemmas about the services commit store and the push-handler loop -/

theorem get_commit_by_hash_isSome_iff (db : SDB) (h : String) :
    (get_commit_by_hash db h).isSome = true ↔ hashStored db h := by
  unfold get_commit_by_hash hashStored
  rw [List.find?_isSome]
  simp

theorem save_commit_events (db : SDB) (d : SCommitData) :
    (save_commit db d).1.events = db.events := by
  unfold save_commit
  cases db.commits.find? (fun c => c.commit_hash == d.commit_hash) <;> rfl

theorem save_commit_hashes (db : SDB) (d : SCommitData) :
    ((save_commit db d).1.commits.map (fun c => c.commit_hash)
        = db.commits.map (fun c => c.commit_hash)
      ∧ d.commit_hash ∈ db.commits.map (fun c => c.commit_hash))
    ∨ ((save_commit db d).1.commits.map (fun c => c.commit_hash)
        = db.commits.map (fun c => c.commit_hash) ++ [d.commit_hash]
      ∧ d.commit_hash ∉ db.commits.map (fun c => c.commit_hash)) := by
  unfold save_commit
  cases hfind : db.commits.find? (fun x => x.commit_hash == d.commit_hash) with
  | some row =>
      left
      constructor
      · simp only [List.map_map]
        apply List.map_congr_left
        intro a _
        by_cases hc : (a.commit_hash == d.commit_hash) = true <;>
          simp_all [Function.comp]
      · have hrow := List.find?_some hfind
        have hmem := List.mem_of_find?_eq_some hfind
        simp only [beq_iff_eq] at hrow
        exact List.mem_map.mpr ⟨row, hmem, hrow⟩
  | none =>
      right
      refine ⟨by simp, ?_⟩
      have hall := List.find?_eq_none.mp hfind
      simp only [List.mem_map]
      rintro ⟨c, hc, hh⟩
      have := hall c hc
      simp [hh] at this

theorem hashStored_iff_mem_map (db : SDB) (h : String) :
    hashStored db h ↔ h ∈ db.commits.map (fun c => c.commit_hash) := by
  simp [hashStored, List.mem_map, eq_comm]

theorem save_commit_hash_superset (db : SDB) (d : SCommitData) (h : String)
    (hs : hashStored db h) : hashStored (save_commit db d).1 h := by
  rw [hashStored_iff_mem_map] at hs ⊢
  rcases save_commit_hashes db d with ⟨heq, _⟩ | ⟨heq, _⟩ <;> rw [heq]
  · exact hs
  · exact List.mem_append_left _ hs

theorem save_commit_stores_own (db : SDB) (d : SCommitData) :
    hashStored (save_commit db d).1 d.commit_hash := by
  rw [hashStored_iff_mem_map]
  rcases save_commit_hashes db d with ⟨heq, hmem⟩ | ⟨heq, _⟩ <;> rw [heq]
  · exact hmem
  · exact List.mem_append_right _ (List.mem_singleton.mpr rfl)

theorem save_commit_nodup (db : SDB) (d : SCommitData)
    (hn : (db.commits.map (fun c => c.commit_hash)).Nodup) :
    ((save_commit db d).1.commits.map (fun c => c.commit_hash)).Nodup := by
  rcases save_commit_hashes db d with ⟨heq, _⟩ | ⟨heq, hnotmem⟩ <;> rw [heq]
  · exact hn
  · rw [List.nodup_append, List.disjoint_singleton]
    exact ⟨hn, List.nodup_singleton _, hnotmem⟩

theorem extract_commit_info_hash (now : Nat) (data : EventData)
    (repo h : String) (c : PushCommit) (d : SCommitData)
    (he : extract_commit_info now data repo h c = .ok d) : d.commit_hash = h := by
  unfold extract_commit_info at he
  repeat' split at he
  all_goals first
    | exact Except.noConfusion he
    | rw [← Except.ok.inj he]

theorem go_events (now : Nat) (data : EventData) (repo : String) :
    ∀ (cs : List PushCommit) (db : SDB) (acc : List String),
      (processCommitsGo now data repo cs db acc).1.events = db.events := by
  intro cs
  induction cs with
  | nil => intro db acc; rfl
  | cons c rest ih =>
      intro db acc
      simp only [processCommitsGo]
      cases c.cid with
      | none => rfl
      | some h =>
          simp only []
          by_cases hex : (get_commit_by_hash db h).isSome = true
          · rw [if_pos hex]; exact ih db acc
          · rw [if_neg hex]
            cases extract_commit_info now data repo h c with
            | error e => rfl
            | ok d => simp only []; rw [ih, save_commit_events]

theorem go_hash_mono (now : Nat) (data : EventData) (repo : String) :
    ∀ (cs : List PushCommit) (db : SDB) (acc : List String) (h : String),
      hashStored db h →
      hashStored (processCommitsGo now data repo cs db acc).1 h := by
  intro cs
  induction cs with
  | nil => intro db acc h hs; exact hs
  | cons c rest ih =>
      intro db acc h hs
      simp only [processCommitsGo]
      cases c.cid with
      | none => exact hs
      | some hsh =>
          simp only []
          by_cases hex : (get_commit_by_hash db hsh).isSome = true
          · rw [if_pos hex]; exact ih db acc h hs
          · rw [if_neg hex]
            cases extract_commit_info now data repo hsh c with
            | error e => exact hs
            | ok d =>
                simp only []
                exact ih _ _ h (save_commit_hash_superset db d h hs)

theorem go_nodup (now : Nat) (data : EventData) (repo : String) :
    ∀ (cs : List PushCommit) (db : SDB) (acc : List String),
      (db.commits.map (fun c => c.commit_hash)).Nodup →
      ((processCommitsGo now data repo cs db acc).1.commits.map
        (fun c => c.commit_hash)).Nodup := by
  intro cs
  induction cs with
  | nil => intro db acc hn; exact hn
  | cons c rest ih =>
      intro db acc hn
      simp only [processCommitsGo]
      cases c.cid with
      | none => exact hn
      | some hsh =>
          simp only []
          by_cases hex : (get_commit_by_hash db hsh).isSome = true
          · rw [if_pos hex]; exact ih db acc hn
          · rw [if_neg hex]
            cases extract_commit_info now data repo hsh c with
            | error e => exact hn
            | ok d =>
                simp only []
                exact ih _ _ (save_commit_nodup db d hn)

theorem go_ok_all_present (now : Nat) (data : EventData) (repo : String) :
    ∀ (cs : List PushCommit) (db : SDB) (acc : List String) (db1 : SDB)
      (l : List String),
      processCommitsGo now data repo cs db acc = (db1, .ok l) →
      ∀ c ∈ cs, ∃ hsh, c.cid = some hsh ∧ hashStored db1 hsh := by
  intro cs
  induction cs with
  | nil => intro db acc db1 l _ c hc; exact absurd hc (List.not_mem_nil c)
  | cons c rest ih =>
      intro db acc db1 l hrun x hx
      simp only [processCommitsGo] at hrun
      cases hcid : c.cid with
      | none => simp only [hcid] at hrun; exact absurd hrun (by simp)
      | some hsh =>
          simp only [hcid] at hrun
          by_cases hex : (get_commit_by_hash db hsh).isSome = true
          · rw [if_pos hex] at hrun
            rcases List.mem_cons.mp hx with hxc | hxr
            · rw [hxc]
              refine ⟨hsh, hcid, ?_⟩
              have hstored := (get_commit_by_hash_isSome_iff db hsh).mp hex
              have := go_hash_mono now data repo rest db acc hsh hstored
              rw [hrun] at this
              exact this
            · exact ih db acc db1 l hrun x hxr
          · rw [if_neg hex] at hrun
            cases hext : extract_commit_info now data repo hsh c with
            | error e => simp only [hext] at hrun; exact absurd hrun (by simp)
            | ok d =>
                simp only [hext] at hrun
                rcases List.mem_cons.mp hx with hxc | hxr
                · rw [hxc]
                  refine ⟨hsh, hcid, ?_⟩
                  have hown := save_commit_stores_own db d
                  rw [extract_commit_info_hash now data repo hsh c d hext] at hown
                  have := go_hash_mono now data repo rest (save_commit db d).1
                    (acc ++ [hsh]) hsh hown
                  rw [hrun] at this
                  exact this
                · exact ih _ _ db1 l hrun x hxr

theorem go_skip_all (now : Nat) (data : EventData) (repo : String) :
    ∀ (cs : List PushCommit) (db : SDB) (acc : List String),
      (∀ c ∈ cs, ∃ hsh, c.cid = some hsh ∧ hashStored db hsh) →
      processCommitsGo now data repo cs db acc = (db, .ok acc) := by
  intro cs
  induction cs with
  | nil => intro db acc _; rfl
  | cons c rest ih =>
      intro db acc hall
      obtain ⟨hsh, hcid, hstored⟩ := hall c (List.mem_cons_self c rest)
      simp only [processCommitsGo, hcid]
      rw [if_pos ((get_commit_by_hash_isSome_iff db hsh).mpr hstored)]
      exact ih db acc (fun x hx => hall x (List.mem_cons_of_mem c hx))

theorem go_append (now : Nat) (data : EventData) (repo : String) :
    ∀ (xs ys : List PushCommit) (db : SDB) (acc : List String),
      processCommitsGo now data repo (xs ++ ys) db acc =
        (match processCommitsGo now data repo xs db acc with
          | (d, .ok a) => processCommitsGo now data repo ys d a
          | (d, .error e) => (d, .error e)) := by
  intro xs
  induction xs with
  | nil => intro ys db acc; rfl
  | cons c rest ih =>
      intro ys db acc
      simp only [List.cons_append, processCommitsGo]
      cases c.cid with
      | none => rfl
      | some hsh =>
          simp only []
          by_cases hex : (get_commit_by_hash db hsh).isSome = true
          · simp only [hex, if_true]
            exact ih ys db acc
          · simp only [hex, if_false]
            cases extract_commit_info now data repo hsh c with
            | error e => rfl
            | ok d => simp only []; exact ih ys _ _

/-- C3 amended: applying the same push payload twice yields exactly one commit
row per commit hash, but it is the *first* application's field values that
persist: the handler skips every commit whose hash is already stored, so the
second application is a no-op on the commit store (first-writer-wins, not
last-writer-wins). -/
theorem C3_amended_replay_is_noop (now1 now2 : Nat) (data : EventData)
    (db db1 : SDB) (l : List String)
    (hfirst : handle_push_event now1 data db = (db1, .ok l)) :
    handle_push_event now2 data db1 = (db1, .ok []) ∧
    ((db.commits.map (fun c => c.commit_hash)).Nodup →
      (db1.commits.map (fun c => c.commit_hash)).Nodup) := by
  unfold handle_push_event at hfirst ⊢
  cases hrepo : data.repository_full_name with
  | none => rw [hrepo] at hfirst; exact absurd hfirst (by simp)
  | some repo =>
      simp only [hrepo] at hfirst
      constructor
      · exact go_skip_all now2 data repo data.commits db1 []
          (go_ok_all_present now1 data repo data.commits db [] db1 l hfirst)
      · intro hn
        have := go_nodup now1 data repo data.commits db [] hn
        rw [hfirst] at this
        exact this

/-- Witness for C3 amended: a concrete payload applied twice; the second
application leaves the store unchanged and reports no processed commits. -/
theorem C3_amended_witness :
    handle_push_event 1 c3wData emptySDB = (c3wDB, .ok ["c3whash"]) ∧
    handle_push_event 2 c3wData c3wDB = (c3wDB, .ok []) ∧
    (c3wDB.commits.map (fun c => c.commit_hash)).Nodup :=
  have hfirst : handle_push_event 1 c3wData emptySDB = (c3wDB, .ok ["c3whash"]) := rfl
  ⟨hfirst,
   (C3_amended_replay_is_noop 1 2 c3wData emptySDB c3wDB ["c3whash"] hfirst).1,
   (C3_amended_replay_is_noop 1 2 c3wData emptySDB c3wDB ["c3whash"] hfirst).2
     (by decide)⟩

/-! ## Claim C6 -/

/-- C6 counterexample: a push payload whose first commit entry is malformed
(missing its `id` key) aborts the whole handler — the well-formed second entry
is never stored, even though on its own it processes fine. -/
theorem C6_counterexample_bad_commit_aborts_payload :
    handle_push_event 0 c6Data emptySDB = (emptySDB, .error .keyError) ∧
    (handle_push_event 0 c6GoodOnlyData emptySDB).2 = .ok ["good1"] :=
  ⟨rfl, rfl⟩

/-- C6 amended: a malformed commit entry (one missing its `id` key) aborts the
push handler: the entries before it stay stored, the handler raises, and
neither the malformed entry nor any later entry is processed. -/
theorem C6_amended_malformed_aborts_rest (now : Nat) (data : EventData)
    (repo : String) (good : List PushCommit) (bad : PushCommit)
    (rest : List PushCommit) (db db1 : SDB) (l : List String)
    (hrepo : data.repository_full_name = some repo)
    (hcommits : data.commits = good ++ bad :: rest)
    (hbad : bad.cid = none)
    (hgood : processCommitsGo now data repo good db [] = (db1, .ok l)) :
    handle_push_event now data db = (db1, .error .keyError) := by
  unfold handle_push_event
  simp only [hrepo]
  rw [hcommits, go_append now data repo good (bad :: rest) db [], hgood]
  simp [processCommitsGo, hbad]

/-- Witness for C6 amended: payload `[good, bad, good2]`; the good prefix is
stored, the malformed entry aborts, `good2` is never processed. -/
theorem C6_amended_witness :
    c6Bad.cid = none ∧
    handle_push_event 9 c6wData emptySDB = (c6wDB, .error .keyError) :=
  ⟨rfl,
   C6_amended_malformed_aborts_rest 9 c6wData "acme/widgets" [c6Good] c6Bad
     [c3Commit] emptySDB c6wDB ["good1"] rfl rfl rfl rfl⟩

/-! ## Claim C7 -/

theorem hpe_events (now : Nat) (data : EventData) (db : SDB) :
    (handle_push_event now data db).1.events = db.events := by
  unfold handle_push_event
  cases data.repository_full_name with
  | none => rfl
  | some repo => exact go_events now data repo data.commits db []

theorem hpr_events_mem (data : EventData) (db : SDB) (row : EventRow)
    (h : row ∈ db.events) :
    row ∈ (handle_pull_request_event data db).1.events := by
  unfold handle_pull_request_event
  cases data.repository_full_name with
  | none => exact h
  | some repository =>
      cases data.pr with
      | none => exact h
      | some pr =>
          cases data.action with
          | none => exact h
          | some a =>
              simp only [save_github_event]
              exact List.mem_append_left _ h

theorem mark_flips_mem (db : SDB) (row : EventRow) (hrow : row ∈ db.events) :
    { row with event_processed := true } ∈
      (mark_event_processed db row.id).events := by
  unfold mark_event_processed
  refine List.mem_map.mpr ⟨row, hrow, ?_⟩
  rw [if_pos (beq_self_eq_true row.id)]


set_option maxHeartbeats 1000000 in
theorem C7_durable_receipt (hmac : String → String → String)
    (decode : String → Option EventData) (secret : Option String)
    (event_type payload : String) (signature : Option String) (now : Nat)
    (db : SDB) (data : EventData)
    (hsig : verify_signature secret hmac payload (signature.getD "") = true)
    (hdec : decode payload = some data) :
    ∃ row ∈ (handle_webhook hmac decode secret event_type payload signature
        now db).1.events,
      row.id = db.nextEventId ∧ row.event_type = event_type ∧
      row.event_processed =
        exceptOk (handle_webhook hmac decode secret event_type payload signature
          now db).2 := by
  unfold handle_webhook
  simp only [hsig, hdec, save_github_event, eq_self_iff_true, not_true, if_false]
  generalize (if (event_type == "push") = true then data.head_commit_id
      else if (event_type == "pull_request") = true then
        Option.map (fun p => p.head_sha) data.pr
      else none) = ch
  set row0 : EventRow :=
    { id := db.nextEventId, event_type := event_type,
      repository := data.repository_full_name.getD "unknown", commit_hash := ch,
      event_processed := false } with hrow0
  set DB1 : SDB :=
    { commits := db.commits, events := db.events ++ [row0],
      interactions := db.interactions, nextCommitId := db.nextCommitId,
      nextEventId := db.nextEventId + 1,
      nextInteractionId := db.nextInteractionId } with hDB1
  have hmem1 : row0 ∈ DB1.events :=
    List.mem_append_right _ (List.mem_singleton_self _)
  by_cases hpush : (event_type == "push") = true
  · rw [if_pos hpush]
    cases hrun : handle_push_event now data DB1 with
    | mk db2 r =>
        have hev : db2.events = DB1.events := by
          have h2 := hpe_events now data DB1
          rw [hrun] at h2
          exact h2
        cases r with
        | error e =>
            refine ⟨row0, ?_, rfl, rfl, rfl⟩
            rw [hev]
            exact hmem1
        | ok lst =>
            refine ⟨{ row0 with event_processed := true }, ?_, rfl, rfl, rfl⟩
            exact mark_flips_mem db2 row0 (hev ▸ hmem1)
  · rw [if_neg hpush]
    by_cases hpr : (event_type == "pull_request") = true
    · rw [if_pos hpr]
      cases hrunp : handle_pull_request_event data DB1 with
      | mk db2 r =>
          have hmem2 : row0 ∈ db2.events := by
            have h2 := hpr_events_mem data DB1 row0 hmem1
            rw [hrunp] at h2
            exact h2
          cases r with
          | error e => exact ⟨row0, hmem2, rfl, rfl, rfl⟩
          | ok u =>
              exact ⟨{ row0 with event_processed := true },
                mark_flips_mem db2 row0 hmem2, rfl, rfl, rfl⟩
    · rw [if_neg hpr]
      exact ⟨{ row0 with event_processed := true },
        mark_flips_mem DB1 row0 hmem1, rfl, rfl, rfl⟩

/-- Witness for C7: a push delivery whose interpretation raises (malformed
commit entry) still leaves its receipt row stored, with `processed = false`
because the run errored. -/
theorem C7_durable_receipt_witness :
    verify_signature none (fun k b => k ++ b) "p"
        ((none : Option String).getD "") = true ∧
    (handle_webhook (fun k b => k ++ b) (fun _ => some c7BadPush) none "push"
        "p" none 0 emptySDB).2 = .error .keyError ∧
    (∃ row ∈ (handle_webhook (fun k b => k ++ b) (fun _ => some c7BadPush)
        none "push" "p" none 0 emptySDB).1.events,
      row.id = emptySDB.nextEventId ∧ row.event_type = "push" ∧
      row.event_processed =
        exceptOk (handle_webhook (fun k b => k ++ b) (fun _ => some c7BadPush)
          none "push" "p" none 0 emptySDB).2) :=
  ⟨rfl, rfl,
   C7_durable_receipt (fun k b => k ++ b) (fun _ => some c7BadPush) none
     "push" "p" none 0 emptySDB c7BadPush rfl rfl⟩

/-! ## Claim C2 -/

/-- C2 counterexample: after storing hash `c2hash` once in repository 1 and
once in repository 2, `get_commit_by_hash` — which takes only the hash —
returns repository 1's row: the lookup is not repository-scoped, so it cannot
respect the per-repository identity for repository 2's commit. -/
theorem C2_counterexample_unscoped_hash_lookup :
    (c2DB.commits.map (fun c => (c.commit_hash, c.repository_id)))
      = [("c2hash", some 1), ("c2hash", some 2)] ∧
    (lget_commit_by_hash c2DB "c2hash").map
        (fun c => (c.repository_id, c.author)) = some (some 1, "A") := by
  decide

/-- C2 amended: in the legacy store, commit identity is
`(commit_hash, repository_id)`: at most one row per pair (non-null ids), and
the same hash stored under two distinct repositories yields two independent
rows, the second write leaving the first untouched; but lookup by hash is
unscoped — it returns the first stored row with that hash across all
repositories. -/
theorem C2_amended_commit_identity (db : LDB) (d1 d2 : LCommitData)
    (h : String) (r1 r2 : Nat)
    (h1 : d1.commit_hash = h) (h2 : d2.commit_hash = h)
    (hr1 : d1.repository_id = some r1) (hr2 : d2.repository_id = some r2)
    (hne : r1 ≠ r2)
    (hfresh : ∀ c ∈ db.commits, c.commit_hash ≠ h)
    (hU : LUniq db) :
    ∃ row1 row2 : LCommitRow,
      (lsave_commit (lsave_commit db d1).1 d2).1.commits
        = db.commits ++ [row1, row2] ∧
      row1.commit_hash = h ∧ row1.repository_id = some r1 ∧
      row1.author = d1.author ∧ row1.message = d1.message ∧
      row2.commit_hash = h ∧ row2.repository_id = some r2 ∧
      row2.author = d2.author ∧ row2.message = d2.message ∧
      lget_commit_by_hash (lsave_commit (lsave_commit db d1).1 d2).1 h
        = some row1 ∧
      LUniq (lsave_commit (lsave_commit db d1).1 d2).1 := by
  subst h1
  have hfind1 : db.commits.find? (fun c =>
      c.commit_hash == d1.commit_hash &&
      c.repository_id == d1.repository_id) = none := by
    refine List.find?_eq_none.mpr (fun c hc => ?_)
    simp only [Bool.and_eq_true, beq_iff_eq, not_and]
    exact fun hcontra _ => hfresh c hc hcontra
  have e1 : (lsave_commit db d1).1 =
      { db with
          commits := db.commits ++
            [{ id := db.nextCommitId, commit_hash := d1.commit_hash,
               repository_id := d1.repository_id, author := d1.author,
               message := d1.message, timestamp_commit := d1.timestamp_commit,
               branch := d1.branch, repository_path := d1.repository_path,
               repository_name := d1.repository_name,
               changed_files := d1.changed_files, metaStr := d1.metaStr }],
          nextCommitId := db.nextCommitId + 1 } := by
    unfold lsave_commit
    rw [hr1]
    simp only [← hr1, hfind1]
  have hfind2 : (db.commits ++
      [({ id := db.nextCommitId, commit_hash := d1.commit_hash,
               repository_id := d1.repository_id, author := d1.author,
               message := d1.message, timestamp_commit := d1.timestamp_commit,
               branch := d1.branch, repository_path := d1.repository_path,
               repository_name := d1.repository_name,
               changed_files := d1.changed_files, metaStr := d1.metaStr } :
        LCommitRow)]).find? (fun c =>
        c.commit_hash == d2.commit_hash &&
        c.repository_id == d2.repository_id) = none := by
    rw [List.find?_append]
    have hdb : db.commits.find? (fun c =>
        c.commit_hash == d2.commit_hash &&
        c.repository_id == d2.repository_id) = none := by
      refine List.find?_eq_none.mpr (fun c hc => ?_)
      simp only [Bool.and_eq_true, beq_iff_eq, not_and, h2]
      exact fun hcontra _ => hfresh c hc hcontra
    rw [hdb]
    simp [List.find?, h2, hr1, hr2]
    rw [beq_eq_false_iff_ne.mpr hne]
  have e2 : (lsave_commit (lsave_commit db d1).1 d2).1 =
      { db with
          commits := (db.commits ++
            [({ id := db.nextCommitId, commit_hash := d1.commit_hash,
                repository_id := d1.repository_id, author := d1.author,
                message := d1.message,
                timestamp_commit := d1.timestamp_commit,
                branch := d1.branch,
                repository_path := d1.repository_path,
                repository_name := d1.repository_name,
                changed_files := d1.changed_files,
                metaStr := d1.metaStr } : LCommitRow)]) ++
            [({ id := db.nextCommitId + 1, commit_hash := d2.commit_hash,
                repository_id := d2.repository_id, author := d2.author,
                message := d2.message,
                timestamp_commit := d2.timestamp_commit,
                branch := d2.branch,
                repository_path := d2.repository_path,
                repository_name := d2.repository_name,
                changed_files := d2.changed_files,
                metaStr := d2.metaStr } : LCommitRow)],
          nextCommitId := db.nextCommitId + 1 + 1 } := by
    rw [e1]
    unfold lsave_commit
    rw [hr2]
    simp only [← hr2, hfind2]
  refine
    ⟨({ id := db.nextCommitId, commit_hash := d1.commit_hash,
        repository_id := d1.repository_id, author := d1.author,
        message := d1.message,
        timestamp_commit := d1.timestamp_commit,
        branch := d1.branch,
        repository_path := d1.repository_path,
        repository_name := d1.repository_name,
        changed_files := d1.changed_files,
        metaStr := d1.metaStr } : LCommitRow),
     ({ id := db.nextCommitId + 1, commit_hash := d2.commit_hash,
        repository_id := d2.repository_id, author := d2.author,
        message := d2.message,
        timestamp_commit := d2.timestamp_commit,
        branch := d2.branch,
        repository_path := d2.repository_path,
        repository_name := d2.repository_name,
        changed_files := d2.changed_files,
        metaStr := d2.metaStr } : LCommitRow),
     ?_, rfl, hr1, rfl, rfl, h2, hr2, rfl, rfl, ?_, ?_⟩
  · rw [e2]
    simp
  · unfold lget_commit_by_hash
    rw [e2]
    have hdbn : db.commits.find? (fun c => c.commit_hash == d1.commit_hash)
        = none := by
      refine List.find?_eq_none.mpr (fun c hc => ?_)
      simp [hfresh c hc]
    simp [List.find?_append, hdbn, List.find?]
  · intro h' r'
    rw [e2]
    simp only [List.filter_append, List.length_append]
    by_cases hh : h' = d1.commit_hash
    · subst hh
      have hdbnil : db.commits.filter (fun c =>
          c.commit_hash == d1.commit_hash && c.repository_id == some r') = [] := by
        refine List.filter_eq_nil_iff.mpr (fun c hc => ?_)
        simp [hfresh c hc]
      rw [hdbnil]
      by_cases hra : r' = r1 <;> by_cases hrb : r' = r2
      · exact absurd (hra.symm.trans hrb) hne
      · simp [List.filter, h2, hr1, hr2, hra,
          (beq_eq_false_iff_ne.mpr (fun hx => hne hx.symm) :
            (r2 == r1) = false)]
      · simp [List.filter, h2, hr1, hr2, hrb,
          (beq_eq_false_iff_ne.mpr hne : (r1 == r2) = false)]
      · simp [List.filter, h2, hr1, hr2,
          (beq_eq_false_iff_ne.mpr (fun hx => hra hx.symm) :
            (r1 == r') = false),
          (beq_eq_false_iff_ne.mpr (fun hx => hrb hx.symm) :
            (r2 == r') = false)]
    · have hr1nil : List.filter (fun c =>
          c.commit_hash == h' && c.repository_id == some r')
          [({ id := db.nextCommitId, commit_hash := d1.commit_hash,
                repository_id := d1.repository_id, author := d1.author,
                message := d1.message,
                timestamp_commit := d1.timestamp_commit,
                branch := d1.branch,
                repository_path := d1.repository_path,
                repository_name := d1.repository_name,
                changed_files := d1.changed_files,
                metaStr := d1.metaStr } : LCommitRow)] = [] := by
        simp [List.filter,
          (beq_eq_false_iff_ne.mpr (fun hx => hh hx.symm) :
            (d1.commit_hash == h') = false)]
      have hr2nil : List.filter (fun c =>
          c.commit_hash == h' && c.repository_id == some r')
          [({ id := db.nextCommitId + 1, commit_hash := d2.commit_hash,
                repository_id := d2.repository_id, author := d2.author,
                message := d2.message,
                timestamp_commit := d2.timestamp_commit,
                branch := d2.branch,
                repository_path := d2.repository_path,
                repository_name := d2.repository_name,
                changed_files := d2.changed_files,
                metaStr := d2.metaStr } : LCommitRow)] = [] := by
        simp [List.filter, h2,
          (beq_eq_false_iff_ne.mpr (fun hx => hh hx.symm) :
            (d1.commit_hash == h') = false)]
      rw [hr1nil, hr2nil]
      simpa using hU h' r'


/-- Witness for C2 amended at the concrete two-repository scenario. -/
theorem C2_amended_witness :
    ∃ row1 row2 : LCommitRow,
      (lsave_commit (lsave_commit emptyLDB c2d1).1 c2d2).1.commits
        = emptyLDB.commits ++ [row1, row2] ∧
      row1.commit_hash = "c2hash" ∧ row1.repository_id = some 1 ∧
      row1.author = c2d1.author ∧ row1.message = c2d1.message ∧
      row2.commit_hash = "c2hash" ∧ row2.repository_id = some 2 ∧
      row2.author = c2d2.author ∧ row2.message = c2d2.message ∧
      lget_commit_by_hash (lsave_commit (lsave_commit emptyLDB c2d1).1 c2d2).1
          "c2hash" = some row1 ∧
      LUniq (lsave_commit (lsave_commit emptyLDB c2d1).1 c2d2).1 :=
  C2_amended_commit_identity emptyLDB c2d1 c2d2 "c2hash" 1 2 rfl rfl rfl rfl
    (by decide) (by simp [emptyLDB]) (fun h r => by simp [emptyLDB])

/-! ## Claim C8 -/

/-- C8: `register_repository` is idempotent on `(owner, name)` — registering
the same pair twice with different metadata returns the same id both times and
leaves exactly one row for the pair, carrying the second call's metadata — and
`ensure_repository_isolation` on an existing pair returns the existing row's
id, creates no repository row, and back-fills the repository id of every
commit recorded only by repository-name text with a null repository id. -/
theorem C8_register_and_backfill (db : LDB) (owner name : String)
    (d1 l1 : Option String) (p1 : Bool) (d2 l2 : Option String) (p2 : Bool) :
    (db.repositories.find? (fun r => r.full_name == owner ++ "/" ++ name)
        = none →
      (register_repository (register_repository db owner name d1 l1 p1).1
          owner name d2 l2 p2).2
        = (register_repository db owner name d1 l1 p1).2 ∧
      (register_repository (register_repository db owner name d1 l1 p1).1
          owner name d2 l2 p2).1.repositories.filter
          (fun r => r.full_name == owner ++ "/" ++ name)
        = [{ id := db.nextRepoId, name := name, owner := owner,
             full_name := owner ++ "/" ++ name, description := d2,
             language := l2, is_private := p2 }] ∧
      (register_repository (register_repository db owner name d1 l1 p1).1
          owner name d2 l2 p2).1.repositories.length
        = db.repositories.length + 1) ∧
    (∀ row ∈ db.repositories, row.full_name = owner ++ "/" ++ name →
      db.repositories.find? (fun r => r.full_name == owner ++ "/" ++ name)
          = some row →
      (ensure_repository_isolation db owner name).2 = row.id ∧
      (ensure_repository_isolation db owner name).1.repositories
        = db.repositories ∧
      ∀ c ∈ db.commits, c.repository_name = some name →
        c.repository_id = none →
        { c with repository_id := some row.id } ∈
          (ensure_repository_isolation db owner name).1.commits) := by
  constructor
  · intro hfind1
    have hnone := List.find?_eq_none.mp hfind1
    have e1 : (register_repository db owner name d1 l1 p1).1 =
        { db with
            repositories := db.repositories ++
              [({ id := db.nextRepoId, name := name, owner := owner,
                  full_name := owner ++ "/" ++ name, description := d1,
                  language := l1, is_private := p1 } : RepoRow)],
            nextRepoId := db.nextRepoId + 1 } := by
      unfold register_repository
      simp only [hfind1]
    have r1val : (register_repository db owner name d1 l1 p1).2
        = db.nextRepoId := by
      unfold register_repository
      simp only [hfind1]
    have hfind2 : (db.repositories ++
        [({ id := db.nextRepoId, name := name, owner := owner,
            full_name := owner ++ "/" ++ name, description := d1,
            language := l1, is_private := p1 } : RepoRow)]).find?
        (fun r => r.full_name == owner ++ "/" ++ name)
        = some ({ id := db.nextRepoId, name := name, owner := owner,
                  full_name := owner ++ "/" ++ name, description := d1,
                  language := l1, is_private := p1 } : RepoRow) := by
      simp only [List.find?_append, hfind1]
      simp [List.find?]
    have e2 : register_repository (register_repository db owner name d1 l1 p1).1
        owner name d2 l2 p2 =
        ({ db with
            repositories := (db.repositories ++
              [({ id := db.nextRepoId, name := name, owner := owner,
                  full_name := owner ++ "/" ++ name, description := d1,
                  language := l1, is_private := p1 } : RepoRow)]).map
              (fun r =>
                if r.full_name == owner ++ "/" ++ name then
                  { r with description := d2, language := l2,
                           is_private := p2 }
                else r),
            nextRepoId := db.nextRepoId + 1 },
         db.nextRepoId) := by
      rw [e1]
      unfold register_repository
      simp only [hfind2]
    refine ⟨?_, ?_, ?_⟩
    · rw [e2, r1val]
    · rw [e2]
      have hmapdb : db.repositories.map (fun r =>
          if r.full_name == owner ++ "/" ++ name then
            { r with description := d2, language := l2, is_private := p2 }
          else r) = db.repositories := by
        have hmap0 : db.repositories.map (fun r =>
            if r.full_name == owner ++ "/" ++ name then
              { r with description := d2, language := l2, is_private := p2 }
            else r) = db.repositories.map id :=
          List.map_congr_left (fun r hr => by
            rw [if_neg (fun hcontra => hnone r hr hcontra)]
            rfl)
        rw [hmap0, List.map_id]
      simp only [List.map_append, hmapdb]
      rw [List.filter_append]
      have hdbnil : db.repositories.filter
          (fun r => r.full_name == owner ++ "/" ++ name) = [] :=
        List.filter_eq_nil_iff.mpr hnone
      rw [hdbnil]
      simp [List.filter]
    · rw [e2]
      simp
  · intro row hrowmem hrowfn hfind
    refine ⟨?_, ?_, ?_⟩
    · unfold ensure_repository_isolation
      simp only [hfind]
    · unfold ensure_repository_isolation
      simp only [hfind]
    · intro c hc hcname hcrid
      unfold ensure_repository_isolation
      simp only [hfind]
      refine List.mem_map.mpr ⟨c, hc, ?_⟩
      rw [if_pos]
      simp [hcname, hcrid]

/-- Witness for C8 at a concrete store: double registration of a fresh pair
returns the same id twice, and `ensure_repository_isolation` on the existing
pair returns the stored id and back-fills the orphan commit. -/
theorem C8_register_and_backfill_witness :
    ((register_repository (register_repository c8DB "x" "y" (some "m1") none
          false).1 "x" "y" (some "m2") (some "Go") true).2
        = (register_repository c8DB "x" "y" (some "m1") none false).2) ∧
    ((ensure_repository_isolation c8DB "a" "b").2 = c8Row.id) ∧
    ({ c8Commit with repository_id := some c8Row.id } ∈
        (ensure_repository_isolation c8DB "a" "b").1.commits) :=
  ⟨((C8_register_and_backfill c8DB "x" "y" (some "m1") none false (some "m2")
      (some "Go") true).1 (by decide)).1,
   ((C8_register_and_backfill c8DB "a" "b" none none false none none
      false).2 c8Row (by decide) (by decide) (by decide)).1,
   ((C8_register_and_backfill c8DB "a" "b" none none false none none
      false).2 c8Row (by decide) (by decide) (by decide)).2.2 c8Commit
     (by decide) rfl rfl⟩

/-! ## Claim C10 -/

/-- C10 counterexample: a commit of a repository named `Practice_Repo` that is
linked by repository id is returned by the repository-scoped commit listing —
the join disjunct of `get_repository_commits` carries no `Practice_Repo`
exclusion, so such commits are not omitted. -/
theorem C10_counterexample_scoped_query_returns_practice_repo :
    get_repository_commits c10DB "mdasif08" "Practice_Repo" 20 = [c10Commit] ∧
    c10Repo.name = "Practice_Repo" ∧
    c10Commit.repository_id = some c10Repo.id := by
  decide

/-- C10 amended: the `Practice_Repo` exclusion is partial.  The scoped
recent-commit listing for that name returns nothing; the unscoped recent
listing omits a commit only when both its joined repository name and its own
`repository_name` text equal `Practice_Repo` — with a limit covering the
table it returns exactly the commits not marked in both fields, so a commit
marked `Practice_Repo` in just one of the two fields is still returned; the
repository statistics omit `Practice_Repo` repository rows and exclude
exactly the commits marked `Practice_Repo` by either field from the commit
count; but `get_repository_commits` still returns commits matched through
the repository-id join regardless of the name. -/
theorem C10_amended_partial_exclusion (db : LDB) (lim : Nat)
    (owner name : String) :
    (get_recent_commits_scoped db "Practice_Repo" lim = []) ∧
    (∀ c ∈ get_recent_commits_all db lim,
      ¬(joinedRepoName db c = some "Practice_Repo" ∧
        c.repository_name = some "Practice_Repo")) ∧
    (db.commits.length ≤ lim →
      ∀ c, c ∈ get_recent_commits_all db lim ↔
        c ∈ db.commits ∧
        ¬(joinedRepoName db c = some "Practice_Repo" ∧
          c.repository_name = some "Practice_Repo")) ∧
    (∀ s ∈ (get_repository_statistics db).repositories,
      s.name ≠ "Practice_Repo") ∧
    ((get_repository_statistics db).total_commits +
        (db.commits.filter (fun c =>
          joinedRepoName db c == some "Practice_Repo" ||
          c.repository_name == some "Practice_Repo")).length
      = db.commits.length) ∧
    (∀ c ∈ get_repository_commits db owner name lim,
      (joinedRepoOwner db c = some owner ∧ joinedRepoName db c = some name) ∨
      (c.repository_name = some name ∧ name ≠ "Practice_Repo")) := by
  refine ⟨?_, ?_, ?_, ?_, ?_, ?_⟩
  · simp [get_recent_commits_scoped]
  · intro c hc
    have hc1 := List.take_subset _ _ hc
    have hc2 := (List.Perm.mem_iff (List.perm_insertionSort _ _)).mp hc1
    have hc3 := (List.mem_filter.mp hc2).2
    rintro ⟨ha, hb⟩
    rw [ha, hb] at hc3
    simp at hc3
  · intro hlim c
    unfold get_recent_commits_all
    have hlen : ((db.commits.filter (fun c =>
        (joinedRepoName db c != some "Practice_Repo") ||
        (c.repository_name != some "Practice_Repo"))).insertionSort
        ltsDesc).length ≤ lim := by
      rw [(List.perm_insertionSort ltsDesc _).length_eq]
      exact le_trans (List.length_filter_le _ _) hlim
    rw [List.take_of_length_le hlen]
    rw [List.Perm.mem_iff (List.perm_insertionSort _ _), List.mem_filter]
    apply and_congr_right
    intro _
    simp only [Bool.or_eq_true, bne_iff_ne, not_and_or]
  · intro s hs
    have hs1 := (List.Perm.mem_iff (List.perm_insertionSort _ _)).mp hs
    obtain ⟨r, hr, rfl⟩ := List.mem_map.mp hs1
    have hname := (List.mem_filter.mp hr).2
    simpa using hname
  · have key := (List.length_eq_length_filter_add
      (l := db.commits)
      (fun c => (joinedRepoName db c != some "Practice_Repo") &&
        (c.repository_name != some "Practice_Repo"))).symm
    unfold get_repository_statistics
    simp only []
    have hfe : List.filter (fun c =>
        joinedRepoName db c == some "Practice_Repo" ||
        c.repository_name == some "Practice_Repo") db.commits
      = List.filter (fun x =>
        !(joinedRepoName db x != some "Practice_Repo" &&
          x.repository_name != some "Practice_Repo")) db.commits := by
      apply List.filter_congr
      intro c _
      cases hj : joinedRepoName db c == some "Practice_Repo" <;>
        cases ht : c.repository_name == some "Practice_Repo" <;>
          simp [bne, hj, ht]
    rw [hfe]
    exact key
  · intro c hc
    have hc1 := List.take_subset _ _ hc
    have hc2 := (List.Perm.mem_iff (List.perm_insertionSort _ _)).mp hc1
    have hc3 := (List.mem_filter.mp hc2).2
    simp only [Bool.or_eq_true, Bool.and_eq_true, beq_iff_eq, bne_iff_ne] at hc3
    exact hc3

/-- Witness for C10 amended on a store with a doubly-marked `Practice_Repo`
commit, a normal commit, and a singly-marked commit (text field only, null
repository id): the singly-marked commit is still returned by the unscoped
recent listing. -/
theorem C10_amended_witness :
    (get_recent_commits_scoped c10wDB "Practice_Repo" 10 = []) ∧
    (c10wOrphan.repository_name = some "Practice_Repo" ∧
      joinedRepoName c10wDB c10wOrphan = none ∧
      c10wOrphan ∈ get_recent_commits_all c10wDB 10) ∧
    (¬(joinedRepoName c10wDB c10wCommit = some "Practice_Repo" ∧
       c10wCommit.repository_name = some "Practice_Repo")) ∧
    ((get_repository_statistics c10wDB).total_commits +
        (c10wDB.commits.filter (fun c =>
          joinedRepoName c10wDB c == some "Practice_Repo" ||
          c.repository_name == some "Practice_Repo")).length
      = c10wDB.commits.length) :=
  ⟨(C10_amended_partial_exclusion c10wDB 10 "acme" "widgets").1,
   ⟨rfl, rfl,
    (((C10_amended_partial_exclusion c10wDB 10 "acme" "widgets").2.2.1
        (by decide) c10wOrphan).mpr ⟨by decide, by decide⟩)⟩,
   (C10_amended_partial_exclusion c10wDB 10 "acme" "widgets").2.1 c10wCommit
     (by decide),
   (C10_amended_partial_exclusion c10wDB 10 "acme" "widgets").2.2.2.2.1⟩

end PracticeRepo
